import Mathlib

/-!
Verification of the SRT generator / forced-aligner core
(`srt_generator_mfa.py`, `srt_generator_ui.py`) against its specification.

The Python functions are shallowly embedded: float arithmetic is modelled
over `ℚ`, Python dictionaries over structures with `Option` fields (a
missing key is `none`, and reading a missing key makes the embedded
function return `none` / raise), and Python strings over `String` viewed
as its list of characters.  Character classes (`str.isspace`, the regex
classes `\S` and `\W`) are modelled for ASCII text, which is the scope of
every concrete input used below.
-/

/-! ## Python string primitives -/

/-- A character the model treats as whitespace, as Python's `str.strip`,
`str.split` and the regex class `\s` do on ASCII text. -/
def isPySpace (c : Char) : Bool := c.isWhitespace

/-- Python `str.strip()`: drop whitespace from both ends. -/
def pyStrip (s : String) : String :=
  String.mk (((s.toList.dropWhile isPySpace).reverse.dropWhile isPySpace).reverse)

/-- Python `str.strip('"')`: drop double-quote characters from both ends. -/
def quoteStrip (s : String) : String :=
  String.mk (((s.toList.dropWhile (· = '"')).reverse.dropWhile (· = '"')).reverse)

/-- Python `str.lower()` on ASCII text. -/
def pyLower (s : String) : String := String.mk (s.toList.map Char.toLower)

/-- A regex word character (`\w`): letter, digit or underscore (ASCII scope).
The complement class `\W` is what `re.sub(r'\W+', '', s)` removes. -/
def isWordChar (c : Char) : Bool := c.isAlphanum || c = '_'

/-- `re.sub(r'\W+', '', s).lower()`: the "loose" normalization both
reinjection implementations apply before comparing words. -/
def cleanToken (s : String) : String :=
  pyLower (String.mk (s.toList.filter isWordChar))

/-- Python `s.split(sep)` for a one-character separator: split at every
occurrence, keeping empty pieces (`"a=" -> ["a", ""]`, `"" -> [""]`). -/
def splitChar (sep : Char) : List Char → List (List Char)
  | [] => [[]]
  | c :: t =>
    let r := splitChar sep t
    if c = sep then [] :: r
    else
      match r with
      | h :: t' => (c :: h) :: t'
      | [] => [[c]]

/-- Python `line.split("=")[1]` (the guard `line.startswith` guarantees the
piece exists wherever the parser uses it; a missing piece yields `""`). -/
def item1 (s : String) : String :=
  (((splitChar '=' s.toList).map String.mk).get? 1).getD ""

/-- Python `line.split("=", 1)[1]`: everything after the first `=`. -/
def afterFirstEq (s : String) : String :=
  match splitChar '=' s.toList with
  | _ :: rest => String.mk (List.intercalate ['='] rest)
  | [] => ""

/-- Python `s.startswith(p)`. -/
def lineStarts (p s : String) : Bool := List.isPrefixOf p.toList s.toList

/-- Helper for `re.findall(r"\S+", s)`: split into whitespace-separated
pieces, keeping the (empty) pieces between adjacent whitespace characters. -/
def splitWsAll : List Char → List (List Char)
  | [] => [[]]
  | c :: t =>
    let r := splitWsAll t
    if isPySpace c then [] :: r
    else
      match r with
      | h :: t' => (c :: h) :: t'
      | [] => [[c]]

/-- `re.findall(r"\S+", original_script)`: the maximal runs of
non-whitespace characters of the transcript, in document order. -/
def scriptWords (s : String) : List String :=
  ((splitWsAll s.toList).filter (· ≠ [])).map String.mk

/-! ## Python numeric primitives over `ℚ` -/

/-- Python `int(x)` on a float: truncation toward zero. -/
def pyTrunc (q : ℚ) : ℤ := if 0 ≤ q then ⌊q⌋ else ⌈q⌉

/-- Python 3 `round(x)` with no digits argument: round half to even
(banker's rounding). -/
def pyRound (q : ℚ) : ℤ :=
  if q - ⌊q⌋ < 1/2 then ⌊q⌋
  else if 1/2 < q - ⌊q⌋ then ⌊q⌋ + 1
  else if ⌊q⌋ % 2 = 0 then ⌊q⌋ else ⌊q⌋ + 1

/-- Python `a % b` on floats (sign of the result follows `b`; here only used
with positive `b`, where the result lies in `[0, b)`). -/
def pyMod (a b : ℚ) : ℚ := a - b * ⌊a / b⌋

/-- Python `str(n)` for an integer. -/
def intStr (n : ℤ) : String :=
  if n < 0 then "-" ++ toString n.natAbs else toString n.natAbs

/-- Pad a string on the left with zeros to width `w`. -/
def zpadStr (w : ℕ) (s : String) : String :=
  if s.length < w then String.mk (List.replicate (w - s.length) '0') ++ s else s

/-- Python `f"{n:0wd}"`: zero-pad to at least `w` characters, the sign, when
present, before the padding. -/
def pyFmt0 (w : ℕ) (n : ℤ) : String :=
  if n < 0 then "-" ++ zpadStr (w - 1) (toString n.natAbs) else zpadStr w (toString n.natAbs)

/-! ## `seconds_to_timestamp` (identical in both source files) -/

/-- The four values `seconds_to_timestamp` computes, in source order:
`hours = int(seconds // 3600)`, `minutes = int((seconds % 3600) // 60)`,
`secs = int(seconds % 60)`,
`milliseconds = int(round((seconds - int(seconds)) * 1000))`
(Python `round` on a float already returns an `int`, so the outer `int` is
the identity). -/
def stsFields (seconds : ℚ) : ℤ × ℤ × ℤ × ℤ :=
  (pyTrunc ((⌊seconds / 3600⌋ : ℤ) : ℚ),
   pyTrunc ((⌊pyMod seconds 3600 / 60⌋ : ℤ) : ℚ),
   pyTrunc (pyMod seconds 60),
   pyRound ((seconds - (pyTrunc seconds : ℤ)) * 1000))

/-- `seconds_to_timestamp`: format as `f"{hours:02}:{minutes:02}:{secs:02},{milliseconds:03}"`. -/
def seconds_to_timestamp (seconds : ℚ) : String :=
  pyFmt0 2 (stsFields seconds).1 ++ ":" ++ pyFmt0 2 (stsFields seconds).2.1 ++ ":" ++
    pyFmt0 2 (stsFields seconds).2.2.1 ++ "," ++ pyFmt0 3 (stsFields seconds).2.2.2

/-! ## Data model

A parsed interval is a Python dictionary that may lack any of its keys:
`Option` fields model that, and reading an absent key is the failure the
`Option`-valued functions below propagate as `none`. -/

/-- One entry of the list `parse_textgrid` returns: a dictionary with the
keys `xmin`, `xmax`, `text`, any of which may be missing. -/
structure PInterval where
  xmin : Option ℚ := none
  xmax : Option ℚ := none
  text : Option String := none
deriving DecidableEq, Repr

/-! ## `reinject_case_and_characters` (identical in both source files) -/

/-- The `while script_index < len(words_from_script)` loop of
`reinject_case_and_characters`, for one interval: scan `toks` from index
`i`, comparing `cleanToken` of each candidate with the interval's already
cleaned word `cw`; return the first matching raw token and its index, or
`none` when the scan exhausts the transcript. -/
def scanMatch (toks : List String) (cw : String) (i : ℕ) : Option (String × ℕ) :=
  if h : i < toks.length then
    if cleanToken (toks.get ⟨i, h⟩) = cw then some (toks.get ⟨i, h⟩, i)
    else scanMatch toks cw (i + 1)
  else none
termination_by toks.length - i

/-- The `for interval in word_intervals` loop of
`reinject_case_and_characters`: `i` is `script_index`.  An interval whose
text is empty or whitespace-only is skipped (`continue`) without touching
the cursor; otherwise the scan either adopts the matched raw token and
leaves the cursor just past it, or leaves the text unchanged with the
cursor at the end of the transcript. -/
def reinjectAux (toks : List String) : ℕ → List PInterval → List PInterval
  | _, [] => []
  | i, iv :: rest =>
    if pyStrip (iv.text.getD "") = "" then reinjectAux toks i rest
    else
      match scanMatch toks (cleanToken (iv.text.getD "")) i with
      | some (cand, j) => { iv with text := some cand } :: reinjectAux toks (j + 1) rest
      | none => iv :: reinjectAux toks toks.length rest

/-- `reinject_case_and_characters(word_intervals, original_script)`. -/
def reinject_case_and_characters (word_intervals : List PInterval)
    (original_script : String) : List PInterval :=
  reinjectAux (scriptWords original_script) 0 word_intervals

/-- `reinjectAux` instrumented with the matched transcript-token index of
each processed interval (`none` for an interval the scan did not match);
`reinjectAux_eq_trace` below ties it to the program. -/
def reinjectTrace (toks : List String) : ℕ → List PInterval → List (PInterval × Option ℕ)
  | _, [] => []
  | i, iv :: rest =>
    if pyStrip (iv.text.getD "") = "" then reinjectTrace toks i rest
    else
      match scanMatch toks (cleanToken (iv.text.getD "")) i with
      | some (cand, j) =>
        ({ iv with text := some cand }, some j) :: reinjectTrace toks (j + 1) rest
      | none => (iv, none) :: reinjectTrace toks toks.length rest

/-! ## `parse_textgrid` (identical in both source files) -/

/-- The failures `parse_textgrid` can raise: `FileMissing` models Python's
`FileNotFoundError` from `open`, `MalformedInterval` the `ValueError` an
unparseable `float(...)` field raises. -/
inductive TGError where
  | FileMissing
  | MalformedInterval
deriving DecidableEq, Repr

/-- Python `float(s)` on the decimal notations the TextGrid format uses:
optional whitespace and sign, digits with an optional point, an optional
exponent; `none` models `ValueError`.  (The exotic inputs `float` also
accepts — `inf`, `nan`, digit-group underscores — are outside the model's
scope; no claim depends on them.) -/
@[irreducible] def pyFloat (s : String) : Option ℚ :=
  let cs := (pyStrip s).toList
  let sgn : ℚ := if cs.head? = some '-' then -1 else 1
  let cs := if cs.head? = some '-' ∨ cs.head? = some '+' then cs.tail else cs
  let ip := cs.takeWhile Char.isDigit
  let cs := cs.dropWhile Char.isDigit
  let fp := if cs.head? = some '.' then cs.tail.takeWhile Char.isDigit else []
  let cs := if cs.head? = some '.' then cs.tail.dropWhile Char.isDigit else cs
  if ip = [] ∧ fp = [] then none
  else
    let mant : ℚ := (ip.foldl (fun a c => 10 * a + (c.toNat - 48)) 0 : ℕ) +
      (fp.foldl (fun a c => 10 * a + (c.toNat - 48)) 0 : ℕ) / (10 : ℚ) ^ fp.length
    match cs with
    | [] => some (sgn * mant)
    | e :: t =>
      if e = 'e' ∨ e = 'E' then
        let esgn : ℤ := if t.head? = some '-' then -1 else 1
        let t := if t.head? = some '-' ∨ t.head? = some '+' then t.tail else t
        let ed := t.takeWhile Char.isDigit
        if ed = [] ∨ t.dropWhile Char.isDigit ≠ [] then none
        else some (sgn * mant * (10 : ℚ) ^ (esgn * (ed.foldl (fun a c => 10 * a + (c.toNat - 48)) 0 : ℕ)))
      else none

/-- The parser's loop state: the `intervals` list built so far, the
accumulator dictionary `current_interval`, and the flag `in_words_tier`. -/
structure TGState where
  intervals : List PInterval
  current : PInterval
  inWordsTier : Bool
deriving DecidableEq, Repr

/-- One iteration of `for line in f` in `parse_textgrid` (the `let` is the
loop's `line = line.strip()`). -/
def parseLine (st : TGState) (rawLine : String) : Except TGError TGState :=
  let line := pyStrip rawLine
  if lineStarts "name =" line then
    .ok { st with inWordsTier := pyLower (quoteStrip (pyStrip (item1 line))) == "words" }
  else if st.inWordsTier && lineStarts "xmin =" line then
    match pyFloat (pyStrip (item1 line)) with
    | some v => .ok { st with current := { st.current with xmin := some v } }
    | none => .error .MalformedInterval
  else if st.inWordsTier && lineStarts "xmax =" line then
    match pyFloat (pyStrip (item1 line)) with
    | some v => .ok { st with current := { st.current with xmax := some v } }
    | none => .error .MalformedInterval
  else if st.inWordsTier && lineStarts "text =" line then
    .ok { st with
          intervals := st.intervals ++
            [{ st.current with text := some (quoteStrip (pyStrip (afterFirstEq line))) }],
          current := {} }
  else .ok st

/-- The whole `for line in f` loop. -/
def parseLoop : TGState → List String → Except TGError TGState
  | st, [] => .ok st
  | st, l :: ls =>
    match parseLine st l with
    | .ok st' => parseLoop st' ls
    | .error e => .error e

/-- `parse_textgrid(file_path)`.  The input is the file's lines, or `none`
when the path does not exist (then `open` raises `FileNotFoundError`). -/
def parse_textgrid (contents : Option (List String)) : Except TGError (List PInterval) :=
  match contents with
  | none => .error .FileMissing
  | some lines =>
    match parseLoop ⟨[], {}, false⟩ lines with
    | .ok st => .ok st.intervals
    | .error e => .error e

/-! ## `group_words_into_sentences` (embedded from `srt_generator_mfa.py`;
`srt_generator_ui.py` differs only in building the joined line with an
f-string and skipping the redundant final `.strip()`) -/

/-- `word_text[-1] in ".!?"` (the call sites guarantee `w` is non-empty). -/
def lastCharPunct (w : String) : Bool :=
  match w.toList.getLast? with
  | some c => c = '.' || c = '!' || c = '?'
  | none => false

/-- The grouper's loop state: `subtitles`, `current_sentence`,
`sentence_start` (`None` encoded as `none`). -/
structure GState where
  subtitles : List (ℚ × ℚ × String)
  current : String
  sentenceStart : Option ℚ
deriving DecidableEq, Repr

/-- One iteration of `for word in word_intervals` in
`group_words_into_sentences`; `none` models the `KeyError` that reading
`word["xmin"]` or `word["xmax"]` raises when the key is absent. -/
def groupStep (maxChars : ℕ) (st : GState) (word : PInterval) : Option GState :=
  let wordText := pyStrip (word.text.getD "")
  if wordText = "" then some st
  else
    match (match st.sentenceStart with | some s => some s | none => word.xmin) with
    | none => none
    | some start =>
      let newSentence := if st.current = "" then wordText else st.current ++ " " ++ wordText
      if maxChars < newSentence.length ∨ lastCharPunct wordText = true then
        match word.xmax with
        | none => none
        | some e => some ⟨st.subtitles ++ [(start, e, pyStrip newSentence)], "", none⟩
      else some ⟨st.subtitles, newSentence, some start⟩

/-- The whole `for word in word_intervals` loop. -/
def groupLoop (maxChars : ℕ) : GState → List PInterval → Option GState
  | st, [] => some st
  | st, w :: ws =>
    match groupStep maxChars st w with
    | some st' => groupLoop maxChars st' ws
    | none => none

/-- `group_words_into_sentences(word_intervals, max_chars)`: run the loop,
then `if current_sentence and sentence_start is not None:` append the
leftover line with the end time of `word_intervals[-1]`. -/
def group_words_into_sentences (word_intervals : List PInterval) (maxChars : ℕ) :
    Option (List (ℚ × ℚ × String)) :=
  match groupLoop maxChars ⟨[], "", none⟩ word_intervals with
  | none => none
  | some st =>
    if st.current = "" then some st.subtitles
    else
      match st.sentenceStart with
      | none => some st.subtitles
      | some s =>
        match word_intervals.getLast? with
        | none => none
        | some last =>
          match last.xmax with
          | none => none
          | some e => some (st.subtitles ++ [(s, e, pyStrip st.current)])

/-! ## Definitions written from the specification's words, for comparison
with the embedded code -/

/-- Modelled from the spec: "round(fractional-second-part × 1000) using
round-half-away-from-zero". -/
def roundHalfAwayFromZero (q : ℚ) : ℤ :=
  if 0 ≤ q then ⌊q + 1/2⌋ else ⌈q - 1/2⌉

/-- Modelled from the spec: "strip all non-alphanumeric characters,
lowercase" (so, unlike the code's `\W+` removal, an underscore is
stripped). -/
def specNormalize (s : String) : String :=
  pyLower (String.mk (s.toList.filter Char.isAlphanum))

/-- The claim's reading of the parser state: instead of the code's boolean
flag it records the name given by the most recent tier-name declaration
line. -/
structure TGSpecState where
  intervals : List PInterval
  current : PInterval
  lastTier : Option String
deriving DecidableEq, Repr

/-- Whether the most recently declared tier name names "words"
case-insensitively (no tier-name line seen yet: no). -/
def tierIsWords : Option String → Bool
  | some n => pyLower n == "words"
  | none => false

/-- `parseLine` as the claim words it: a text line is captured exactly when
the most recent tier-name declaration line names "words"
case-insensitively. -/
def specParseLine (st : TGSpecState) (rawLine : String) : Except TGError TGSpecState :=
  let line := pyStrip rawLine
  if lineStarts "name =" line then
    .ok { st with lastTier := some (quoteStrip (pyStrip (item1 line))) }
  else if tierIsWords st.lastTier && lineStarts "xmin =" line then
    match pyFloat (pyStrip (item1 line)) with
    | some v => .ok { st with current := { st.current with xmin := some v } }
    | none => .error .MalformedInterval
  else if tierIsWords st.lastTier && lineStarts "xmax =" line then
    match pyFloat (pyStrip (item1 line)) with
    | some v => .ok { st with current := { st.current with xmax := some v } }
    | none => .error .MalformedInterval
  else if tierIsWords st.lastTier && lineStarts "text =" line then
    .ok { st with
          intervals := st.intervals ++
            [{ st.current with text := some (quoteStrip (pyStrip (afterFirstEq line))) }],
          current := {} }
  else .ok st

/-- The claim-side parsing loop. -/
def specParseLoop : TGSpecState → List String → Except TGError TGSpecState
  | st, [] => .ok st
  | st, l :: ls =>
    match specParseLine st l with
    | .ok st' => specParseLoop st' ls
    | .error e => .error e

/-- The parser as the claim describes it, over the same line list. -/
def parse_textgrid_claim (lines : List String) : Except TGError (List PInterval) :=
  match specParseLoop ⟨[], {}, none⟩ lines with
  | .ok st => .ok st.intervals
  | .error e => .error e

/-- The intervals whose text is neither empty nor whitespace-only: the ones
reinjection keeps. -/
def keepNonEmptyText (ws : List PInterval) : List PInterval :=
  ws.filter (fun iv => pyStrip (iv.text.getD "") != "")


/-! ## Helper lemmas -/


/-- Forget the claim-side parser state down to the code state: the boolean
flag is "the most recently declared tier name names words". -/
def eraseTG (st : TGSpecState) : TGState :=
  ⟨st.intervals, st.current, tierIsWords st.lastTier⟩

lemma pyTrunc_intCast (n : ℤ) : pyTrunc (n : ℚ) = n := by
  unfold pyTrunc
  split <;> simp

lemma pyTrunc_eq_floor {q : ℚ} (h : 0 ≤ q) : pyTrunc q = ⌊q⌋ := if_pos h

lemma pyMod_nonneg (a : ℚ) {b : ℚ} (hb : 0 < b) : 0 ≤ pyMod a b := by
  unfold pyMod
  have h1 : b * ((⌊a / b⌋ : ℤ) : ℚ) ≤ b * (a / b) :=
    mul_le_mul_of_nonneg_left (Int.floor_le _) hb.le
  have h2 : b * (a / b) = a := by
    field_simp
  linarith

lemma parse_textgrid_some (lines : List String) :
    parse_textgrid (some lines) =
      match parseLoop ⟨[], {}, false⟩ lines with
      | .ok st => .ok st.intervals
      | .error e => .error e := rfl

lemma isPre_excl : ∀ (p q s : List Char), p.length = q.length → p ≠ q →
    List.isPrefixOf p s = true → List.isPrefixOf q s = true → False := by
  intro p
  induction p with
  | nil =>
    intro q s hlen hne _ _
    cases q with
    | nil => exact hne rfl
    | cons b bs => simp at hlen
  | cons a as ih =>
    intro q s hlen hne hp hq
    cases q with
    | nil => simp at hlen
    | cons b bs =>
      cases s with
      | nil => simp [List.isPrefixOf] at hp
      | cons c cs =>
        simp only [List.isPrefixOf, Bool.and_eq_true, beq_iff_eq] at hp hq
        obtain ⟨hac, hp'⟩ := hp
        obtain ⟨hbc, hq'⟩ := hq
        by_cases hab : a = b
        · subst hab
          exact ih bs cs (by simpa using hlen) (fun h => hne (by rw [h])) hp' hq'
        · exact hab (hac.trans hbc.symm)

lemma lineStarts_excl {p q : String} (s : String) (hlen : p.toList.length = q.toList.length)
    (hne : p.toList ≠ q.toList) (hq : lineStarts q s = true) : lineStarts p s = false := by
  cases h : lineStarts p s with
  | false => rfl
  | true => exact (isPre_excl p.toList q.toList s.toList hlen hne h hq).elim

lemma parseLine_error_eq (st : TGState) (l : String) (e : TGError)
    (h : parseLine st l = .error e) : e = .MalformedInterval := by
  simp only [parseLine] at h
  split_ifs at h
  all_goals try split at h
  all_goals first
    | exact (Except.noConfusion h)
    | (injection h with h2; exact h2.symm)

lemma parseLoop_error_eq : ∀ (ls : List String) (st : TGState) (e : TGError),
    parseLoop st ls = .error e → e = .MalformedInterval := by
  intro ls
  induction ls with
  | nil => intro st e h; exact (Except.noConfusion h)
  | cons l ls ih =>
    intro st e h
    unfold parseLoop at h
    cases hp : parseLine st l with
    | ok st' => rw [hp] at h; exact ih st' e h
    | error e' =>
      rw [hp] at h
      injection h with h
      subst h
      exact parseLine_error_eq st l e' hp

lemma parseLine_no_words (st : TGState) (l : String) (hflag : st.inWordsTier = false)
    (hname : lineStarts "name =" (pyStrip l) = true →
      (pyLower (quoteStrip (pyStrip (item1 (pyStrip l)))) == "words") = false) :
    parseLine st l = .ok st := by
  simp only [parseLine]
  cases hn : lineStarts "name =" (pyStrip l) with
  | true =>
    simp only [hn, if_true]
    rw [hname hn]
    cases st
    simp_all
  | false =>
    simp [hn, hflag]

lemma parseLoop_no_words : ∀ (ls : List String) (st : TGState),
    st.inWordsTier = false →
    (∀ l ∈ ls, lineStarts "name =" (pyStrip l) = true →
      (pyLower (quoteStrip (pyStrip (item1 (pyStrip l)))) == "words") = false) →
    parseLoop st ls = .ok st := by
  intro ls
  induction ls with
  | nil => intro st _ _; rfl
  | cons l ls ih =>
    intro st hflag hall
    unfold parseLoop
    rw [parseLine_no_words st l hflag (hall l (by simp))]
    exact ih st hflag (fun x hx => hall x (by simp [hx]))

lemma parseLine_erase (st : TGSpecState) (l : String) :
    parseLine (eraseTG st) l = Except.map eraseTG (specParseLine st l) := by
  by_cases h1 : lineStarts "name =" (pyStrip l) = true
  · simp [parseLine, specParseLine, eraseTG, tierIsWords, h1, Except.map]
  · by_cases h2 : (tierIsWords st.lastTier && lineStarts "xmin =" (pyStrip l)) = true
    · cases hf : pyFloat (pyStrip (item1 (pyStrip l))) with
      | some v => simp [parseLine, specParseLine, eraseTG, h1, h2, hf, Except.map]
      | none => simp [parseLine, specParseLine, eraseTG, h1, h2, hf, Except.map]
    · by_cases h3 : (tierIsWords st.lastTier && lineStarts "xmax =" (pyStrip l)) = true
      · cases hf : pyFloat (pyStrip (item1 (pyStrip l))) with
        | some v => simp [parseLine, specParseLine, eraseTG, h1, h2, h3, hf, Except.map]
        | none => simp [parseLine, specParseLine, eraseTG, h1, h2, h3, hf, Except.map]
      · by_cases h4 : (tierIsWords st.lastTier && lineStarts "text =" (pyStrip l)) = true
        · simp [parseLine, specParseLine, eraseTG, h1, h2, h3, h4, Except.map]
        · simp [parseLine, specParseLine, eraseTG, h1, h2, h3, h4, Except.map]

lemma parseLoop_erase : ∀ (ls : List String) (st : TGSpecState),
    parseLoop (eraseTG st) ls = Except.map eraseTG (specParseLoop st ls) := by
  intro ls
  induction ls with
  | nil => intro st; rfl
  | cons l ls ih =>
    intro st
    unfold parseLoop specParseLoop
    rw [parseLine_erase]
    cases hp : specParseLine st l with
    | ok st' => simp [Except.map, ih st']
    | error e => simp [Except.map]

lemma scanMatch_at_end (toks : List String) (cw : String) (i : ℕ) (h : toks.length ≤ i) :
    scanMatch toks cw i = none := by
  rw [scanMatch]
  rw [dif_neg (by omega)]

lemma scanMatch_eq_some_aux : ∀ (d : ℕ) (toks : List String) (cw : String) (i j : ℕ)
    (hj : j < toks.length), toks.length - i = d → i ≤ j →
    cleanToken (toks.get ⟨j, hj⟩) = cw →
    (∀ (k : ℕ) (hk : k < toks.length), i ≤ k → k < j → cleanToken (toks.get ⟨k, hk⟩) ≠ cw) →
    scanMatch toks cw i = some (toks.get ⟨j, hj⟩, j) := by
  intro d
  induction d with
  | zero =>
    intro toks cw i j hj hd hij heq hmin
    omega
  | succ d ihd =>
    intro toks cw i j hj hd hij heq hmin
    have hi : i < toks.length := by omega
    rw [scanMatch, dif_pos hi]
    by_cases hceq : cleanToken (toks.get ⟨i, hi⟩) = cw
    · rcases Nat.lt_or_ge i j with hlt | hge
      · exact absurd hceq (hmin i hi (le_refl i) hlt)
      · have hij' : i = j := le_antisymm hij hge
        subst hij'
        rw [if_pos hceq]
    · rw [if_neg hceq]
      have hij2 : i + 1 ≤ j := by
        rcases Nat.eq_or_lt_of_le hij with he | hlt
        · subst he
          exact absurd heq hceq
        · omega
      exact ihd toks cw (i + 1) j hj (by omega) hij2 heq
        (fun k hk h1 h2 => hmin k hk (by omega) h2)

lemma scanMatch_eq_some (toks : List String) (cw : String) (i j : ℕ)
    (hj : j < toks.length) (hij : i ≤ j)
    (heq : cleanToken (toks.get ⟨j, hj⟩) = cw)
    (hmin : ∀ (k : ℕ) (hk : k < toks.length), i ≤ k → k < j →
      cleanToken (toks.get ⟨k, hk⟩) ≠ cw) :
    scanMatch toks cw i = some (toks.get ⟨j, hj⟩, j) :=
  scanMatch_eq_some_aux (toks.length - i) toks cw i j hj rfl hij heq hmin

lemma scanMatch_eq_none_aux : ∀ (d : ℕ) (toks : List String) (cw : String) (i : ℕ),
    toks.length - i = d →
    (∀ (k : ℕ) (hk : k < toks.length), i ≤ k → cleanToken (toks.get ⟨k, hk⟩) ≠ cw) →
    scanMatch toks cw i = none := by
  intro d
  induction d with
  | zero =>
    intro toks cw i hd _
    exact scanMatch_at_end toks cw i (by omega)
  | succ d ihd =>
    intro toks cw i hd hall
    have hi : i < toks.length := by omega
    rw [scanMatch, dif_pos hi, if_neg (hall i hi (le_refl i))]
    exact ihd toks cw (i + 1) (by omega) (fun k hk h1 => hall k hk (by omega))

lemma scanMatch_eq_none (toks : List String) (cw : String) (i : ℕ)
    (hall : ∀ (k : ℕ) (hk : k < toks.length), i ≤ k → cleanToken (toks.get ⟨k, hk⟩) ≠ cw) :
    scanMatch toks cw i = none :=
  scanMatch_eq_none_aux (toks.length - i) toks cw i rfl hall

lemma scanMatch_bounds_aux : ∀ (d : ℕ) (toks : List String) (cw : String) (i : ℕ)
    (c : String) (j : ℕ), toks.length - i = d →
    scanMatch toks cw i = some (c, j) → i ≤ j ∧ j < toks.length := by
  intro d
  induction d with
  | zero =>
    intro toks cw i c j hd h
    rw [scanMatch_at_end toks cw i (by omega)] at h
    exact (Option.noConfusion h)
  | succ d ihd =>
    intro toks cw i c j hd h
    have hi : i < toks.length := by omega
    rw [scanMatch, dif_pos hi] at h
    by_cases hceq : cleanToken (toks.get ⟨i, hi⟩) = cw
    · rw [if_pos hceq] at h
      injection h with h
      have hj : i = j := congrArg Prod.snd h
      omega
    · rw [if_neg hceq] at h
      have := ihd toks cw (i + 1) c j (by omega) h
      omega

lemma scanMatch_bounds (toks : List String) (cw : String) (i : ℕ) (c : String) (j : ℕ)
    (h : scanMatch toks cw i = some (c, j)) : i ≤ j ∧ j < toks.length :=
  scanMatch_bounds_aux (toks.length - i) toks cw i c j rfl h

lemma reinjectAux_filter (toks : List String) : ∀ (ws : List PInterval) (i : ℕ),
    reinjectAux toks i ws = reinjectAux toks i (keepNonEmptyText ws) := by
  intro ws
  induction ws with
  | nil => intro i; rfl
  | cons iv rest ih =>
    intro i
    by_cases he : pyStrip (iv.text.getD "") = ""
    · rw [show keepNonEmptyText (iv :: rest) = keepNonEmptyText rest from by
        simp [keepNonEmptyText, he]]
      simp only [reinjectAux, if_pos he]
      exact ih i
    · rw [show keepNonEmptyText (iv :: rest) = iv :: keepNonEmptyText rest from by
        simp [keepNonEmptyText, he]]
      simp only [reinjectAux, if_neg he]
      cases hs : scanMatch toks (cleanToken (iv.text.getD "")) i with
      | some cj =>
        cases cj with
        | mk c j => dsimp only; rw [ih (j + 1)]
      | none => dsimp only; rw [ih toks.length]

lemma reinjectAux_sameTimes (toks : List String) : ∀ (ks : List PInterval) (i : ℕ),
    (∀ iv ∈ ks, pyStrip (iv.text.getD "") ≠ "") →
    List.Forall₂ (fun o iv => o.xmin = iv.xmin ∧ o.xmax = iv.xmax)
      (reinjectAux toks i ks) ks := by
  intro ks
  induction ks with
  | nil => intro i _; exact List.Forall₂.nil
  | cons iv rest ih =>
    intro i hall
    have hne := hall iv (by simp)
    simp only [reinjectAux, if_neg hne]
    cases hs : scanMatch toks (cleanToken (iv.text.getD "")) i with
    | some cj =>
      cases cj with
      | mk c j =>
        exact List.Forall₂.cons ⟨rfl, rfl⟩ (ih (j + 1) (fun x hx => hall x (by simp [hx])))
    | none =>
      exact List.Forall₂.cons ⟨rfl, rfl⟩ (ih toks.length (fun x hx => hall x (by simp [hx])))

lemma reinjectAux_eq_trace (toks : List String) : ∀ (ws : List PInterval) (i : ℕ),
    reinjectAux toks i ws = (reinjectTrace toks i ws).map Prod.fst := by
  intro ws
  induction ws with
  | nil => intro i; rfl
  | cons iv rest ih =>
    intro i
    by_cases he : pyStrip (iv.text.getD "") = ""
    · simp only [reinjectAux, reinjectTrace, if_pos he]
      exact ih i
    · simp only [reinjectAux, reinjectTrace, if_neg he]
      cases hs : scanMatch toks (cleanToken (iv.text.getD "")) i with
      | some cj =>
        cases cj with
        | mk c j => dsimp only; rw [List.map_cons, ih (j + 1)]
      | none => dsimp only; rw [List.map_cons, ih toks.length]

lemma reinjectTrace_at_end (toks : List String) : ∀ (ws : List PInterval),
    reinjectTrace toks toks.length ws =
      (keepNonEmptyText ws).map (fun iv => (iv, (none : Option ℕ))) := by
  intro ws
  induction ws with
  | nil => rfl
  | cons iv rest ih =>
    by_cases he : pyStrip (iv.text.getD "") = ""
    · rw [show keepNonEmptyText (iv :: rest) = keepNonEmptyText rest from by
        simp [keepNonEmptyText, he]]
      simp only [reinjectTrace, if_pos he]
      exact ih
    · rw [show keepNonEmptyText (iv :: rest) = iv :: keepNonEmptyText rest from by
        simp [keepNonEmptyText, he]]
      simp only [reinjectTrace, if_neg he]
      rw [scanMatch_at_end toks _ toks.length (le_refl _)]
      dsimp only
      rw [List.map_cons, ih]

lemma reinjectTrace_matched_ge (toks : List String) : ∀ (ws : List PInterval) (i : ℕ)
    (p : PInterval) (j : ℕ), (p, some j) ∈ reinjectTrace toks i ws → i ≤ j := by
  intro ws
  induction ws with
  | nil =>
    intro i p j h
    simp [reinjectTrace] at h
  | cons iv rest ih =>
    intro i p j h
    by_cases he : pyStrip (iv.text.getD "") = ""
    · simp only [reinjectTrace, if_pos he] at h
      exact ih i p j h
    · simp only [reinjectTrace, if_neg he] at h
      cases hs : scanMatch toks (cleanToken (iv.text.getD "")) i with
      | some cj =>
        cases cj with
        | mk c j0 =>
          rw [hs] at h
          dsimp only at h
          rcases List.mem_cons.mp h with h | h
          · have hj : j = j0 := by
              have := congrArg Prod.snd h
              simpa using this
            have hb := (scanMatch_bounds toks _ i c j0 hs).1
            omega
          · have hb := (scanMatch_bounds toks _ i c j0 hs).1
            have := ih (j0 + 1) p j h
            omega
      | none =>
        rw [hs] at h
        dsimp only at h
        rcases List.mem_cons.mp h with h | h
        · exact absurd (congrArg Prod.snd h) (by simp)
        · rw [reinjectTrace_at_end] at h
          have : (p, some j).2 = none := by
            rcases List.mem_map.mp h with ⟨x, -, hx⟩
            rw [← hx]
          simp at this

lemma reinjectTrace_mono (toks : List String) : ∀ (ws : List PInterval) (i k l : ℕ)
    (pk pl : PInterval) (jk jl : ℕ), k < l →
    (reinjectTrace toks i ws).get? k = some (pk, some jk) →
    (reinjectTrace toks i ws).get? l = some (pl, some jl) → jk < jl := by
  intro ws
  induction ws with
  | nil =>
    intro i k l pk pl jk jl hkl hk hl
    simp [reinjectTrace] at hk
  | cons iv rest ih =>
    intro i k l pk pl jk jl hkl hk hl
    by_cases he : pyStrip (iv.text.getD "") = ""
    · simp only [reinjectTrace, if_pos he] at hk hl
      exact ih i k l pk pl jk jl hkl hk hl
    · simp only [reinjectTrace, if_neg he] at hk hl
      cases hs : scanMatch toks (cleanToken (iv.text.getD "")) i with
      | some cj =>
        cases cj with
        | mk c j0 =>
          rw [hs] at hk hl
          dsimp only at hk hl
          cases k with
          | zero =>
            cases l with
            | zero => omega
            | succ l' =>
              rw [List.get?_cons_zero] at hk
              rw [List.get?_cons_succ] at hl
              have hjk : jk = j0 := by
                injection hk with hk2
                have := congrArg Prod.snd hk2
                simpa using this.symm
              have hmem : (pl, some jl) ∈ reinjectTrace toks (j0 + 1) rest :=
                List.get?_mem hl
              have := reinjectTrace_matched_ge toks rest (j0 + 1) pl jl hmem
              omega
          | succ k' =>
            cases l with
            | zero => omega
            | succ l' =>
              rw [List.get?_cons_succ] at hk hl
              exact ih (j0 + 1) k' l' pk pl jk jl (by omega) hk hl
      | none =>
        rw [hs] at hk hl
        dsimp only at hk hl
        cases k with
        | zero =>
          rw [List.get?_cons_zero] at hk
          injection hk with hk2
          exact absurd (congrArg Prod.snd hk2) (by simp)
        | succ k' =>
          cases l with
          | zero => omega
          | succ l' =>
            rw [List.get?_cons_succ] at hk hl
            exact ih toks.length k' l' pk pl jk jl (by omega) hk hl

/-! ## The claims -/

/-- C1 (the code omits the required millisecond carry): the specification
demands that rounding the fractional part up to 1000 milliseconds carry one
second, so that 3661.9996 formats as "01:01:02,000"; the embedded code
instead emits a four-digit millisecond field.  This theorem evaluates
`seconds_to_timestamp` at the failing input 3661.9996 = 36619996/10000. -/
theorem c1_no_millisecond_carry :
    seconds_to_timestamp (36619996 / 10000 : ℚ) = "01:01:01,1000" := by
  have h : stsFields (36619996 / 10000 : ℚ) = (1, 1, 1, 1000) := by
    norm_num [stsFields, pyTrunc, pyMod, pyRound]
  rw [seconds_to_timestamp, h]
  decide

/-- C2: in the cue grouper, a word with non-empty stripped text closes a cue
(appends it to the output) exactly when the candidate line exceeds
`maxChars` or the word's last character is one of `.`, `!`, `?`; the
triggering word is part of the closed cue's text (a suffix of the candidate
line, never deferred), and the word's `xmax` becomes the closed cue's end
time.  When the condition does not hold nothing is appended and the
candidate line is carried forward. -/
theorem c2_close_condition (maxChars : ℕ) (st : GState) (w : PInterval) (a b : ℚ)
    (wt cand : String)
    (hwt : wt = pyStrip (w.text.getD ""))
    (hcand : cand = if st.current = "" then wt else st.current ++ " " ++ wt)
    (hxmin : w.xmin = some a) (hxmax : w.xmax = some b) (hw : wt ≠ "") :
    ∃ st', groupStep maxChars st w = some st' ∧
      ((maxChars < cand.length ∨ lastCharPunct wt = true) →
        st'.subtitles = st.subtitles ++ [(st.sentenceStart.getD a, b, pyStrip cand)] ∧
        wt.toList.IsSuffix cand.toList) ∧
      (¬ (maxChars < cand.length ∨ lastCharPunct wt = true) →
        st'.subtitles = st.subtitles ∧ st'.current = cand ∧
        st'.sentenceStart = some (st.sentenceStart.getD a)) := by
  have hsuf : wt.toList.IsSuffix cand.toList := by
    rw [hcand]
    split
    · exact List.suffix_refl _
    · have h2 : (st.current ++ " " ++ wt).toList = (st.current ++ " ").toList ++ wt.toList := by
        simp [String.toList, String.data_append]
      rw [h2]
      exact List.suffix_append _ _
  have hw' : pyStrip (w.text.getD "") ≠ "" := by rw [← hwt]; exact hw
  simp only [groupStep]
  rw [if_neg hw']
  cases hss : st.sentenceStart with
  | none =>
    simp only [hxmin, Option.getD_none, ← hwt, ← hcand]
    by_cases hc : (maxChars < cand.length ∨ lastCharPunct wt = true)
    · rw [if_pos hc, hxmax]
      exact ⟨_, rfl, fun _ => ⟨rfl, hsuf⟩, fun h => absurd hc h⟩
    · rw [if_neg hc]
      exact ⟨_, rfl, fun h => absurd h hc, fun _ => ⟨rfl, rfl, rfl⟩⟩
  | some s =>
    simp only [Option.getD_some, ← hwt, ← hcand]
    by_cases hc : (maxChars < cand.length ∨ lastCharPunct wt = true)
    · rw [if_pos hc, hxmax]
      exact ⟨_, rfl, fun _ => ⟨rfl, hsuf⟩, fun h => absurd hc h⟩
    · rw [if_neg hc]
      exact ⟨_, rfl, fun h => absurd h hc, fun _ => ⟨rfl, rfl, rfl⟩⟩

/-- C2 witness: the step at a concrete punctuation-closed word. -/
theorem c2_close_condition_witness :
    ∃ st', groupStep 3 (⟨[], "", none⟩ : GState) (⟨some 0, some 1, some "hi."⟩ : PInterval) = some st' ∧
      ((3 < ("hi." : String).length ∨ lastCharPunct "hi." = true) →
        st'.subtitles = ([] : List (ℚ × ℚ × String)) ++ [((0 : ℚ), (1 : ℚ), pyStrip "hi.")] ∧
        ("hi." : String).toList.IsSuffix ("hi." : String).toList) ∧
      (¬ (3 < ("hi." : String).length ∨ lastCharPunct "hi." = true) →
        st'.subtitles = ([] : List (ℚ × ℚ × String)) ∧ st'.current = "hi." ∧
        st'.sentenceStart = some (0 : ℚ)) :=
  c2_close_condition 3 ⟨[], "", none⟩ ⟨some 0, some 1, some "hi."⟩ 0 1 "hi." "hi."
    (by decide) (by decide) rfl rfl (by decide)

/-- C3: when the loop ends with an unclosed partial line (non-empty
`current` with a recorded start), the grouper emits exactly one extra final
cue: its start is the recorded start, its text the partial line, and its
end the `xmax` of the very last interval of the whole input sequence. -/
theorem c3_trailing_cue (maxChars : ℕ) (ws : List PInterval) (st : GState)
    (s e : ℚ) (lw : PInterval)
    (hloop : groupLoop maxChars ⟨[], "", none⟩ ws = some st)
    (hcur : st.current ≠ "")
    (hss : st.sentenceStart = some s)
    (hlast : ws.getLast? = some lw)
    (hxmax : lw.xmax = some e) :
    group_words_into_sentences ws maxChars = some (st.subtitles ++ [(s, e, pyStrip st.current)]) := by
  unfold group_words_into_sentences
  rw [hloop]
  simp only [if_neg hcur, hss, hlast, hxmax]

/-- C3 witness at a concrete one-word unclosed input. -/
theorem c3_trailing_cue_witness :
    group_words_into_sentences [(⟨some 0, some 1, some "hi"⟩ : PInterval)] 10 =
      some ([] ++ [((0 : ℚ), (1 : ℚ), pyStrip "hi")]) :=
  c3_trailing_cue 10 [⟨some 0, some 1, some "hi"⟩] ⟨[], "hi", some 0⟩ 0 1
    ⟨some 0, some 1, some "hi"⟩ (by decide) (by decide) rfl rfl rfl

/-- C4 (amended: the code's normalization keeps the underscore): for an
interval with non-empty text the matcher, scanning forward from the cursor,
adopts the first token whose `\W`-stripped lowercased form equals the
interval's, leaving the cursor just past it; with no matching token from
the cursor on, the interval's text is unchanged and the cursor moves to the
end of the transcript, after which every later interval is passed through
unchanged (no later interval can match). -/
theorem c4_normalize_first_match (toks : List String) (i : ℕ) (iv : PInterval)
    (rest : List PInterval) (hw : pyStrip (iv.text.getD "") ≠ "") :
    (∀ (j : ℕ) (hj : j < toks.length), i ≤ j →
      cleanToken (toks.get ⟨j, hj⟩) = cleanToken (iv.text.getD "") →
      (∀ (k : ℕ) (hk : k < toks.length), i ≤ k → k < j →
        cleanToken (toks.get ⟨k, hk⟩) ≠ cleanToken (iv.text.getD "")) →
      reinjectAux toks i (iv :: rest) =
        { iv with text := some (toks.get ⟨j, hj⟩) } :: reinjectAux toks (j + 1) rest)
    ∧ ((∀ (k : ℕ) (hk : k < toks.length), i ≤ k →
        cleanToken (toks.get ⟨k, hk⟩) ≠ cleanToken (iv.text.getD "")) →
      reinjectAux toks i (iv :: rest) = iv :: reinjectAux toks toks.length rest)
    ∧ (∀ (l : List PInterval), reinjectAux toks toks.length l = keepNonEmptyText l) := by
  refine ⟨?_, ?_, ?_⟩
  · intro j hj hij heq hmin
    simp only [reinjectAux, if_neg hw]
    rw [scanMatch_eq_some toks _ i j hj hij heq hmin]
  · intro hall
    simp only [reinjectAux, if_neg hw]
    rw [scanMatch_eq_none toks _ i hall]
  · intro l
    induction l with
    | nil => rfl
    | cons x xs ih =>
      by_cases he : pyStrip (x.text.getD "") = ""
      · rw [show keepNonEmptyText (x :: xs) = keepNonEmptyText xs from by
          simp [keepNonEmptyText, he]]
        simp only [reinjectAux, if_pos he]
        exact ih
      · rw [show keepNonEmptyText (x :: xs) = x :: keepNonEmptyText xs from by
          simp [keepNonEmptyText, he]]
        simp only [reinjectAux, if_neg he]
        rw [scanMatch_at_end toks _ toks.length (le_refl _)]
        rw [ih]

/-- C4 witness: normalization recovers case and punctuation at a concrete
token. -/
theorem c4_normalize_first_match_witness :
    reinjectAux ["Hello!"] 0 [(⟨some 0, some 1, some "hello"⟩ : PInterval)] =
      [(⟨some 0, some 1, some "Hello!"⟩ : PInterval)] := by
  have h := (c4_normalize_first_match ["Hello!"] 0 ⟨some 0, some 1, some "hello"⟩ []
    (by decide)).1 0 (by decide) (by decide) (by decide) (by decide)
  exact h

/-- C4 counterexample to the claim as stated: under the spec's
"strip all non-alphanumeric characters" normalization the interval text
"a_b" and the transcript token "ab" normalize equally, so the claim's
matcher would adopt "ab"; the code's `\W+`-stripping keeps the underscore,
no match happens, and the text stays "a_b". -/
theorem c4_strip_nonalnum_counterexample :
    specNormalize "a_b" = specNormalize "ab" ∧
    reinject_case_and_characters [(⟨some 0, some 1, some "a_b"⟩ : PInterval)] "ab" ≠
      [(⟨some 0, some 1, some "ab"⟩ : PInterval)] ∧
    reinject_case_and_characters [(⟨some 0, some 1, some "a_b"⟩ : PInterval)] "ab" =
      [(⟨some 0, some 1, some "a_b"⟩ : PInterval)] := by
  have hsm : scanMatch ["ab"]
      (cleanToken (((⟨some 0, some 1, some "a_b"⟩ : PInterval)).text.getD "")) 0 = none := by
    rw [scanMatch, dif_pos (by decide), if_neg (by decide), scanMatch, dif_neg (by decide)]
  have hr : reinject_case_and_characters [(⟨some 0, some 1, some "a_b"⟩ : PInterval)] "ab" =
      [(⟨some 0, some 1, some "a_b"⟩ : PInterval)] := by
    unfold reinject_case_and_characters
    rw [show scriptWords "ab" = ["ab"] from by decide]
    simp only [reinjectAux]
    rw [if_neg (by decide), hsm]
  refine ⟨by decide, ?_, hr⟩
  rw [hr]
  decide

/-- C5: the reinjector's output is exactly the non-empty-text input
intervals, in order: it is unchanged by pre-filtering the empty-text
entries away (so they are absent from the output and never advance the
cursor), and it corresponds one-to-one, in order, with the kept entries,
preserving each one's `xmin` and `xmax`. -/
theorem c5_drops_empty_text (ws : List PInterval) (script : String) :
    reinject_case_and_characters ws script =
      reinject_case_and_characters (keepNonEmptyText ws) script ∧
    List.Forall₂ (fun o iv => o.xmin = iv.xmin ∧ o.xmax = iv.xmax)
      (reinject_case_and_characters ws script) (keepNonEmptyText ws) := by
  constructor
  · exact reinjectAux_filter _ ws 0
  · rw [show reinject_case_and_characters ws script =
      reinjectAux (scriptWords script) 0 (keepNonEmptyText ws) from reinjectAux_filter _ ws 0]
    refine reinjectAux_sameTimes _ (keepNonEmptyText ws) 0 (fun iv hiv => ?_)
    have := List.mem_filter.mp hiv
    simpa using this.2

/-- C6: the parser agrees, on every line list, with the claim-side parser
that captures an interval record at each text line whose most recent
preceding tier-name declaration names "words" case-insensitively (the flag
flips at every tier-name line, so differently-named tiers contribute
nothing). -/
theorem c6_words_tier_only (lines : List String) :
    parse_textgrid (some lines) = parse_textgrid_claim lines := by
  rw [parse_textgrid_some]
  unfold parse_textgrid_claim
  have he : (⟨[], {}, false⟩ : TGState) = eraseTG ⟨[], {}, none⟩ := rfl
  rw [he, parseLoop_erase lines ⟨[], {}, none⟩]
  cases specParseLoop ⟨[], {}, none⟩ lines with
  | ok st => simp [Except.map, eraseTG]
  | error e => simp [Except.map]

/-- C7: the parser fails with `FileMissing` exactly on a missing file; the
only error a line list can produce is `MalformedInterval`, and a single
line errs precisely when the words-tier flag is set, the line is an
`xmin =`/`xmax =` declaration, and its numeric field does not parse; a
document whose tier-name lines never name "words" yields `ok []`, not an
error. -/
theorem c7_error_modes :
    parse_textgrid none = .error .FileMissing
    ∧ (∀ (lines : List String) (e : TGError),
        parse_textgrid (some lines) = .error e → e = .MalformedInterval)
    ∧ (∀ (st : TGState) (l : String),
        parseLine st l = .error .MalformedInterval ↔
          (st.inWordsTier = true ∧
            ((lineStarts "xmin =" (pyStrip l) = true ∨ lineStarts "xmax =" (pyStrip l) = true) ∧
              pyFloat (pyStrip (item1 (pyStrip l))) = none)))
    ∧ (∀ (lines : List String),
        (∀ l ∈ lines, lineStarts "name =" (pyStrip l) = true →
          (pyLower (quoteStrip (pyStrip (item1 (pyStrip l)))) == "words") = false) →
        parse_textgrid (some lines) = .ok []) := by
  refine ⟨rfl, ?_, ?_, ?_⟩
  · intro lines e h
    rw [parse_textgrid_some] at h
    cases hp : parseLoop ⟨[], {}, false⟩ lines with
    | ok st => rw [hp] at h; exact (Except.noConfusion h)
    | error e' =>
      rw [hp] at h
      injection h with h
      subst h
      exact parseLoop_error_eq lines _ e' hp
  · intro st l
    constructor
    · intro h
      simp only [parseLine] at h
      by_cases h1 : lineStarts "name =" (pyStrip l) = true
      · rw [if_pos h1] at h; exact (Except.noConfusion h)
      · rw [if_neg h1] at h
        by_cases h2 : (st.inWordsTier && lineStarts "xmin =" (pyStrip l)) = true
        · rw [if_pos h2] at h
          rcases (Bool.and_eq_true _ _).mp h2 with ⟨hf, hx⟩
          refine ⟨hf, Or.inl hx, ?_⟩
          revert h
          split
          · intro h; exact (Except.noConfusion h)
          · intro _; assumption
        · rw [if_neg h2] at h
          by_cases h3 : (st.inWordsTier && lineStarts "xmax =" (pyStrip l)) = true
          · rw [if_pos h3] at h
            rcases (Bool.and_eq_true _ _).mp h3 with ⟨hf, hx⟩
            refine ⟨hf, Or.inr hx, ?_⟩
            revert h
            split
            · intro h; exact (Except.noConfusion h)
            · intro _; assumption
          · rw [if_neg h3] at h
            by_cases h4 : (st.inWordsTier && lineStarts "text =" (pyStrip l)) = true
            · rw [if_pos h4] at h; exact (Except.noConfusion h)
            · rw [if_neg h4] at h; exact (Except.noConfusion h)
    · rintro ⟨hflag, hxor, hfloat⟩
      have hname : lineStarts "name =" (pyStrip l) = false := by
        cases hxor with
        | inl hx => exact lineStarts_excl _ (by decide) (by decide) hx
        | inr hx => exact lineStarts_excl _ (by decide) (by decide) hx
      simp only [parseLine]
      cases hxor with
      | inl hx =>
        rw [if_neg (by simp [hname]), if_pos (by rw [hflag, hx]; rfl), hfloat]
      | inr hx =>
        have hxmin : lineStarts "xmin =" (pyStrip l) = false :=
          lineStarts_excl _ (by decide) (by decide) hx
        rw [if_neg (by simp [hname]), if_neg (by simp [hxmin]),
          if_pos (by rw [hflag, hx]; rfl), hfloat]
  · intro lines hall
    rw [parse_textgrid_some, parseLoop_no_words lines ⟨[], {}, false⟩ rfl hall]

/-- C7 witness: a document with a non-"words" tier parses to the empty
list even though its `xmin` line would otherwise be consumed. -/
theorem c7_error_modes_witness :
    parse_textgrid (some ["name = \"phones\"", "xmin = 0"]) = .ok [] :=
  c7_error_modes.2.2.2 ["name = \"phones\"", "xmin = 0"] (by decide)

/-- C8: the reinjection cursor is monotonic: in the matched-index trace of
a run, any two successfully matched intervals have strictly increasing
transcript-token indices; and the program's output is the trace's first
components, tying the trace to `reinject_case_and_characters`. -/
theorem c8_cursor_monotone (ws : List PInterval) (script : String)
    (k l jk jl : ℕ) (pk pl : PInterval)
    (hkl : k < l)
    (hk : (reinjectTrace (scriptWords script) 0 ws).get? k = some (pk, some jk))
    (hl : (reinjectTrace (scriptWords script) 0 ws).get? l = some (pl, some jl)) :
    jk < jl ∧
    reinject_case_and_characters ws script =
      (reinjectTrace (scriptWords script) 0 ws).map Prod.fst :=
  ⟨reinjectTrace_mono _ ws 0 k l pk pl jk jl hkl hk hl, reinjectAux_eq_trace _ ws 0⟩

/-- C8 witness: two matched intervals at concrete indices 0 and 1. -/
theorem c8_cursor_monotone_witness :
    (0 : ℕ) < 1 ∧
    reinject_case_and_characters
        [(⟨some 0, some 1, some "hello"⟩ : PInterval), ⟨some 1, some 2, some "world"⟩]
        "hello world" =
      (reinjectTrace (scriptWords "hello world") 0
        [(⟨some 0, some 1, some "hello"⟩ : PInterval), ⟨some 1, some 2, some "world"⟩]).map
          Prod.fst := by
  have hsw : scriptWords "hello world" = ["hello", "world"] := by decide
  have h1 : scanMatch ["hello", "world"]
      (cleanToken (((⟨some 0, some 1, some "hello"⟩ : PInterval)).text.getD "")) 0 =
      some ("hello", 0) := by
    rw [scanMatch, dif_pos (by decide), if_pos (by decide)]
    rfl
  have h2 : scanMatch ["hello", "world"]
      (cleanToken (((⟨some 1, some 2, some "world"⟩ : PInterval)).text.getD "")) (0 + 1) =
      some ("world", 0 + 1) := by
    rw [scanMatch, dif_pos (by decide), if_pos (by decide)]
    rfl
  have htr : reinjectTrace ["hello", "world"] 0
      [(⟨some 0, some 1, some "hello"⟩ : PInterval), ⟨some 1, some 2, some "world"⟩] =
      [(⟨some 0, some 1, some "hello"⟩, some 0), (⟨some 1, some 2, some "world"⟩, some (0 + 1))] := by
    rw [reinjectTrace, if_neg (by decide), h1]
    dsimp only
    rw [reinjectTrace, if_neg (by decide), h2]
    dsimp only
    rfl
  refine c8_cursor_monotone _ "hello world" 0 1 0 (0 + 1)
    ⟨some 0, some 1, some "hello"⟩ ⟨some 1, some 2, some "world"⟩ (by decide) ?_ ?_
  · rw [hsw, htr]; rfl
  · rw [hsw, htr]; rfl

/-- C9 counterexample to round-half-away-from-zero: at seconds = 1/16
(exactly representable, fractional part 0.0625, 62.5 ms) the code's
Python-3 banker's rounding yields 62 while the spec's
round-half-away-from-zero yields 63. -/
theorem c9_half_even_counterexample :
    (stsFields (1/16 : ℚ)).2.2.2 = 62 ∧
    roundHalfAwayFromZero (((1/16 : ℚ) - ((⌊(1/16 : ℚ)⌋ : ℤ) : ℚ)) * 1000) = 63 := by
  constructor
  · have h : stsFields (1/16 : ℚ) = (0, 0, 0, 62) := by
      norm_num [stsFields, pyTrunc, pyMod, pyRound]
    rw [h]
  · norm_num [roundHalfAwayFromZero]

/-- C9 (amended: the rounding is round-half-to-even): for every
non-negative input, the formatter's fields are hours = ⌊s/3600⌋,
minutes = ⌊(s mod 3600)/60⌋, secs = ⌊s mod 60⌋ and milliseconds =
round-half-to-even of the fractional part times 1000. -/
theorem c9_fields_banker_round (q : ℚ) (hq : 0 ≤ q) :
    stsFields q = (⌊q / 3600⌋, ⌊pyMod q 3600 / 60⌋, ⌊pyMod q 60⌋,
      pyRound ((q - ((⌊q⌋ : ℤ) : ℚ)) * 1000)) := by
  unfold stsFields
  rw [pyTrunc_intCast, pyTrunc_intCast, pyTrunc_eq_floor (pyMod_nonneg q (by norm_num)),
    pyTrunc_eq_floor hq]

/-- C9 witness at seconds = 5/2. -/
theorem c9_fields_banker_round_witness :
    stsFields (5/2 : ℚ) = (⌊(5/2 : ℚ) / 3600⌋, ⌊pyMod (5/2 : ℚ) 3600 / 60⌋,
      ⌊pyMod (5/2 : ℚ) 60⌋, pyRound (((5/2 : ℚ) - ((⌊(5/2 : ℚ)⌋ : ℤ) : ℚ)) * 1000)) :=
  c9_fields_banker_round (5/2) (by norm_num)

/-- C10: a text line in the words tier always appends a record carrying
whatever (possibly absent) bounds the accumulator holds; an interval with
non-empty text but no `xmin` key makes the cue grouper fail (the
`word["xmin"]` access), shown generally and on a concrete parsed
document. -/
theorem c10_emits_partial_interval :
    (∀ (st : TGState) (l : String), st.inWordsTier = true →
      lineStarts "text =" (pyStrip l) = true →
      parseLine st l = .ok { st with
        intervals := st.intervals ++
          [{ st.current with text := some (quoteStrip (pyStrip (afterFirstEq (pyStrip l)))) }],
        current := {} })
    ∧ (∀ (t : String) (maxChars : ℕ), pyStrip t ≠ "" →
        group_words_into_sentences [{ xmin := none, xmax := none, text := some t }] maxChars = none)
    ∧ parse_textgrid (some ["name = \"words\"", "text = \"hello\""]) =
        .ok [{ xmin := none, xmax := none, text := some "hello" }]
    ∧ group_words_into_sentences [{ xmin := none, xmax := none, text := some "hello" }] 30 = none := by
  refine ⟨?_, ?_, ?_, ?_⟩
  · intro st l hflag htext
    have hname : lineStarts "name =" (pyStrip l) = false :=
      lineStarts_excl _ (by decide) (by decide) htext
    have hxmin : lineStarts "xmin =" (pyStrip l) = false :=
      lineStarts_excl _ (by decide) (by decide) htext
    have hxmax : lineStarts "xmax =" (pyStrip l) = false :=
      lineStarts_excl _ (by decide) (by decide) htext
    simp only [parseLine]
    simp [hname, hxmin, hxmax, htext, hflag]
  · intro t maxChars ht
    simp [group_words_into_sentences, groupLoop, groupStep, ht]
  · rfl
  · rfl

/-- C10 witness: the grouper fails on a concrete interval that lacks its
bounds. -/
theorem c10_emits_partial_interval_witness :
    group_words_into_sentences [({ xmin := none, xmax := none, text := some "x." } : PInterval)]
      30 = none :=
  c10_emits_partial_interval.2.1 "x." 30 (by decide)
